import Mathlib

/-!
Verification of the connection-lifecycle and relay core of
`src/src/assignments/unit_05.rs` (a multi-client TCP chat relay).

The pool of client slots is modelled as a `List Client`; the `Arc<Mutex<_>>`
indirection of the source is modelled by returning indices into the pool.
Machine integers: `SOCKET` wraps a 64-bit `usize`, so sockets are `Nat` with
the sentinel `INVALID_SOCKET = 2^64 - 1`; client ids are `u32`, so id
arithmetic is taken modulo `2^32`.  Network reads are modelled by the pair
(return value of `recv` as an `Int`, buffer contents as a `List Char`);
sends are recorded as explicit actions.
-/

namespace Unit05

/-- The `INVALID_SOCKET` sentinel: `usize::MAX` on a 64-bit target.  A slot
whose socket equals this value is unoccupied (empty). -/
def INVALID_SOCKET : Nat := 18446744073709551615

/-- `BUFFER_SIZE` from line 15 of the source: the fixed receive buffer size. -/
def BUFFER_SIZE : Nat := 2048

/-- Modulus for `u32` id arithmetic (`Client.id` is a `u32`). -/
def U32_MOD : Nat := 4294967296

/-- One pool slot (struct `Client`, lines 19-24).  The `addr` field is
opaque to every claim and is omitted; `occupied` is derived as
`socket ≠ INVALID_SOCKET`, exactly as the source tests `socket.0 == INVALID_SOCKET`. -/
structure Client where
  id : Nat
  socket : Nat
deriving DecidableEq

/-- `impl Default for Client` (lines 26-41): id 0 and the invalid socket. -/
def Client.default : Client := Client.mk 0 INVALID_SOCKET

/-- The closure body of `resize_with` in `ClientPool::new` (lines 60-72):
each slot clones the running counter client (socket invalid) and then the
counter id is incremented (`u32` wrap-around modelled by `% U32_MOD`). -/
def mk_clients (startId : Nat) : Nat → List Client
  | 0 => []
  | n + 1 => Client.mk startId INVALID_SOCKET :: mk_clients ((startId + 1) % U32_MOD) n

/-- `ClientPool::new(pool_size)` (lines 60-72), restricted to the slot vector. -/
def ClientPool.new (pool_size : Nat) : List Client :=
  mk_clients 0 pool_size

/-- The `iter().find(..)` scan inside `find_empty_client` (lines 75-78):
index of the first slot whose socket is the invalid sentinel. -/
def find_first_empty_idx : List Client → Option Nat
  | [] => none
  | c :: rest =>
    if c.socket == INVALID_SOCKET then some 0
    else (find_first_empty_idx rest).map (fun j => j + 1)

/-- `ClientPool::find_empty_client` (lines 74-87): return the first empty
slot; if every slot is occupied, push `Client::default()` and return the
last (newly appended) slot.  The returned `Arc` is modelled by the index of
the returned slot in the resulting pool. -/
def find_empty_client (pool : List Client) : List Client × Nat :=
  match find_first_empty_idx pool with
  | some i => (pool, i)
  | none => (pool ++ [Client.default], pool.length)

/-- Overwrite the socket field of the slot at an index, leaving the id (and
every other slot) unchanged: `client_lock.socket = accepted_socket` (line 231). -/
def set_socket : List Client → Nat → Nat → List Client
  | [], _, _ => []
  | c :: rest, 0, s => Client.mk c.id s :: rest
  | c :: rest, i + 1, s => c :: set_socket rest i s

/-- One iteration of the accept loop up to the error check (lines 222-236):
pick a slot with `find_empty_client`, store the accepted socket into it, and
if the accepted socket is invalid report and continue (`none`), otherwise
proceed with that slot (`some index`). -/
def accept_step (pool : List Client) (accepted : Nat) : List Client × Option Nat :=
  if accepted = INVALID_SOCKET then
    (set_socket (find_empty_client pool).fst (find_empty_client pool).snd accepted, none)
  else
    (set_socket (find_empty_client pool).fst (find_empty_client pool).snd accepted,
      some (find_empty_client pool).snd)

/-- The `other_clients` snapshot captured after a successful accept
(lines 248-253): the source filters the pool only by `c.id != client_id`. -/
def snapshot_others (pool : List Client) (clientId : Nat) : List Client :=
  pool.filter (fun c => !(c.id == clientId))

/-- Follows the spec's words, for comparison with `snapshot_others`:
"returns every slot in the pool whose `occupied` is true and whose
`id != excludeId`". -/
def snapshot_others_spec (pool : List Client) (excludeId : Nat) : List Client :=
  pool.filter (fun c => !(c.socket == INVALID_SOCKET) && !(c.id == excludeId))

/-- The termination token `":end"` (line 115), as a character list. -/
def termToken : List Char := [':', 'e', 'n', 'd']

/-- The farewell payload `"Bye!\0"` (line 117). -/
def byeMessage : List Char := ['B', 'y', 'e', '!', '\x00']

/-- Rust's `recv_size as usize` on a 64-bit target: the `i32` value is
sign-extended and reinterpreted, i.e. reduced modulo `2^64`. -/
def usize_cast (i : Int) : Nat := (i % (18446744073709551616 : Int)).toNat

/-- `String::from_utf8_lossy(&recv_buffer[..recv_size as usize])` (lines
112-113), with the byte/character decoding left abstract: the first
`recv_size as usize` entries of the receive buffer. -/
def decoded_message (rs : Int) (buf : List Char) : List Char :=
  buf.take (usize_cast rs)

/-- A network send performed by a handler: destination slot id and payload. -/
inductive Action where
  | sendTo (dst : Nat) (msg : List Char)
deriving DecidableEq

/-- The `for client in other_clients.iter()` forward loop (lines 138-153):
peers whose socket is currently the invalid sentinel are skipped (`continue`),
every other peer is sent the identical message. -/
def forward_loop (msg : List Char) : List Client → List Action
  | [] => []
  | c :: rest =>
    if c.socket == INVALID_SOCKET then forward_loop msg rest
    else Action.sendTo c.id msg :: forward_loop msg rest

/-- Outcome of one iteration of the relay loop: keep relaying (with the
sends performed), break out of the loop (with the sends performed), or
panic (slice bound check failure). -/
inductive StepResult where
  | relayContinue (acts : List Action)
  | relayClosing (acts : List Action)
  | panicked
deriving DecidableEq

/-- One iteration of the `loop` in `start_messaging` (lines 105-154).
`recv` returned `rs`; the buffer holds `buf`.  The slice
`recv_buffer[..rs as usize]` panics when the bound exceeds the buffer
length (in particular when `rs` is `SOCKET_ERROR = -1`); a message starting
with `":end"` sends the farewell to the sender and breaks; otherwise the
message is echoed to the sender and forwarded to the snapshot peers. -/
def handler_step (selfId : Nat) (others : List Client) (rs : Int) (buf : List Char) :
    StepResult :=
  if buf.length < usize_cast rs then StepResult.panicked
  else if termToken.isPrefixOf (decoded_message rs buf) then
    StepResult.relayClosing [Action.sendTo selfId byeMessage]
  else
    StepResult.relayContinue
      (Action.sendTo selfId (decoded_message rs buf) ::
        forward_loop (decoded_message rs buf) others)

/-- How the relay loop ended: `break` on the termination token, a panic, or
the modelled input list was exhausted while still in the relay state. -/
inductive LoopExit where
  | gracefulExit
  | panicExit
  | starvedExit
deriving DecidableEq

/-- The whole `loop` of `start_messaging` run over a list of modelled
`recv` results: accumulated sends plus how the loop ended. -/
def relay_loop (selfId : Nat) (others : List Client) :
    List (Int × List Char) → List Action × LoopExit
  | [] => ([], LoopExit.starvedExit)
  | (rs, buf) :: rest =>
    match handler_step selfId others rs buf with
    | StepResult.panicked => ([], LoopExit.panicExit)
    | StepResult.relayClosing acts => (acts, LoopExit.gracefulExit)
    | StepResult.relayContinue acts =>
      let r := relay_loop selfId others rest
      (acts ++ r.fst, r.snd)

/-- The post-loop cleanup (lines 156-158): `closesocket` (best-effort) and
`client_lock.socket.0 = INVALID_SOCKET`, leaving the slot empty. -/
def handler_cleanup (c : Client) : Client :=
  Client.mk c.id INVALID_SOCKET

/-- Lock and blocking events emitted by a handler thread, for the lock
discipline claims.  `acquireSelf`/`releaseSelf` are the handler's own slot
mutex; peer events carry the peer's id. -/
inductive LockEvent where
  | acquireSelf
  | releaseSelf
  | acquirePeer (peer : Nat)
  | releasePeer (peer : Nat)
  | blockingRecv
  | blockingSend (dst : Nat)
deriving DecidableEq

/-- Lock/blocking events of the forward loop (lines 138-153): each peer's
mutex is acquired, the occupied check decides whether a blocking send
happens, and the peer guard is dropped at the end of the iteration. -/
def peer_forward_events : List Client → List LockEvent
  | [] => []
  | c :: rest =>
    if c.socket == INVALID_SOCKET then
      LockEvent.acquirePeer c.id :: LockEvent.releasePeer c.id :: peer_forward_events rest
    else
      LockEvent.acquirePeer c.id :: LockEvent.blockingSend c.id ::
        LockEvent.releasePeer c.id :: peer_forward_events rest

/-- Lock/blocking events of the relay loop (lines 105-154): every iteration
starts with the blocking `recv`; the termination branch sends the farewell
to the sender; otherwise the echo send is followed by the peer forwards. -/
def relay_loop_events (selfId : Nat) (others : List Client) :
    List (Int × List Char) → List LockEvent
  | [] => []
  | (rs, buf) :: rest =>
    if buf.length < usize_cast rs then [LockEvent.blockingRecv]
    else if termToken.isPrefixOf (decoded_message rs buf) then
      [LockEvent.blockingRecv, LockEvent.blockingSend selfId]
    else
      LockEvent.blockingRecv :: LockEvent.blockingSend selfId ::
        (peer_forward_events others ++ relay_loop_events selfId others rest)

/-- Full event trace of a handler thread (lines 95-159): the slot mutex is
acquired on entry (line 96) and the guard is dropped only when the closure
ends (line 159, also on unwinding); the greeting send (lines 97-102)
precedes the relay loop. -/
def handler_events (selfId : Nat) (others : List Client)
    (inputs : List (Int × List Char)) : List LockEvent :=
  LockEvent.acquireSelf :: LockEvent.blockingSend selfId ::
    (relay_loop_events selfId others inputs ++ [LockEvent.releaseSelf])

/-- Checker: every blocking event in the trace happens while the handler's
own slot lock is held (`d` is the current self-lock depth). -/
def all_blocking_locked : List LockEvent → Nat → Bool
  | [], _ => true
  | LockEvent.acquireSelf :: rest, d => all_blocking_locked rest (d + 1)
  | LockEvent.releaseSelf :: rest, d => all_blocking_locked rest (d - 1)
  | LockEvent.acquirePeer _ :: rest, d => all_blocking_locked rest d
  | LockEvent.releasePeer _ :: rest, d => all_blocking_locked rest d
  | LockEvent.blockingRecv :: rest, d => decide (0 < d) && all_blocking_locked rest d
  | LockEvent.blockingSend _ :: rest, d => decide (0 < d) && all_blocking_locked rest d

/-- Checker for the discipline the spec states: the handler's own slot lock
is released before every blocking operation (no blocking while `d > 0`). -/
def no_blocking_while_locked : List LockEvent → Nat → Bool
  | [], _ => true
  | LockEvent.acquireSelf :: rest, d => no_blocking_while_locked rest (d + 1)
  | LockEvent.releaseSelf :: rest, d => no_blocking_while_locked rest (d - 1)
  | LockEvent.acquirePeer _ :: rest, d => no_blocking_while_locked rest d
  | LockEvent.releasePeer _ :: rest, d => no_blocking_while_locked rest d
  | LockEvent.blockingRecv :: rest, d => decide (d = 0) && no_blocking_while_locked rest d
  | LockEvent.blockingSend _ :: rest, d => decide (d = 0) && no_blocking_while_locked rest d

/-! Helper lemmas about the pool operations. -/

/-- If every slot is occupied, the scan finds nothing. -/
theorem find_first_empty_idx_all_occupied (pool : List Client)
    (h : ∀ c ∈ pool, c.socket ≠ INVALID_SOCKET) :
    find_first_empty_idx pool = none := by
  induction pool with
  | nil => rfl
  | cons c rest ih =>
    have hc : c.socket ≠ INVALID_SOCKET := h c (List.mem_cons_self c rest)
    have hrest : find_first_empty_idx rest = none :=
      ih (fun x hx => h x (List.mem_cons_of_mem c hx))
    simp [find_first_empty_idx, hc, hrest]

/-- The scan returns the index of the first empty slot. -/
theorem find_first_empty_idx_first (pool : List Client) (i : Nat) (c : Client)
    (hi : pool[i]? = some c) (hc : c.socket = INVALID_SOCKET)
    (hfirst : ∀ cj ∈ pool.take i, cj.socket ≠ INVALID_SOCKET) :
    find_first_empty_idx pool = some i := by
  induction pool generalizing i with
  | nil => simp at hi
  | cons c0 rest ih =>
    cases i with
    | zero =>
      simp at hi
      subst hi
      simp [find_first_empty_idx, hc]
    | succ j =>
      have hc0 : c0.socket ≠ INVALID_SOCKET := by
        apply hfirst
        simp [List.take_succ_cons]
      have hrest : find_first_empty_idx rest = some j := by
        apply ih j
        · simpa using hi
        · intro cj hcj
          exact hfirst cj (by simp [List.take_succ_cons, hcj])
      simp [find_first_empty_idx, hc0, hrest]

/-- If the scan returns an index, that index holds an empty slot. -/
theorem find_first_empty_idx_sound (pool : List Client) (i : Nat)
    (h : find_first_empty_idx pool = some i) :
    ∃ c, pool[i]? = some c ∧ c.socket = INVALID_SOCKET := by
  induction pool generalizing i with
  | nil => simp [find_first_empty_idx] at h
  | cons c0 rest ih =>
    by_cases h0 : c0.socket = INVALID_SOCKET
    · have : i = 0 := by
        simp [find_first_empty_idx, h0] at h
        omega
      subst this
      exact ⟨c0, by simp, h0⟩
    · have hbeq : (c0.socket == INVALID_SOCKET) = false := by
        simp [h0]
      simp only [find_first_empty_idx, hbeq, Bool.false_eq_true, if_false] at h
      match hrest : find_first_empty_idx rest with
      | none => rw [hrest] at h; simp at h
      | some j =>
        rw [hrest] at h
        simp at h
        obtain ⟨c, hc1, hc2⟩ := ih j hrest
        exact ⟨c, by simpa [← h] using hc1, hc2⟩

/-- Appending one element and reading back at the old length. -/
theorem getElem_append_length {α : Type} (l : List α) (a : α) :
    (l ++ [a])[l.length]? = some a := by
  induction l with
  | nil => rfl
  | cons x xs ih => simp [ih]

/-- `take` of the old length after appending one element. -/
theorem take_length_append {α : Type} (l : List α) (a : α) :
    (l ++ [a]).take l.length = l := by
  induction l with
  | nil => rfl
  | cons x xs ih => simp [ih]

/-- The slot returned by `find_empty_client` is empty in the returned pool. -/
theorem find_empty_client_found (pool : List Client) :
    ∃ c, (find_empty_client pool).fst[(find_empty_client pool).snd]? = some c ∧
      c.socket = INVALID_SOCKET := by
  unfold find_empty_client
  match h : find_first_empty_idx pool with
  | some i =>
    obtain ⟨c, hc1, hc2⟩ := find_first_empty_idx_sound pool i h
    exact ⟨c, hc1, hc2⟩
  | none =>
    refine ⟨Client.default, ?_, rfl⟩
    simp [getElem_append_length pool Client.default]

/-- Writing back the socket value a slot already holds is the identity. -/
theorem set_socket_same (l : List Client) (i : Nat) (c : Client)
    (hi : l[i]? = some c) : set_socket l i c.socket = l := by
  induction l generalizing i with
  | nil => rfl
  | cons x xs ih =>
    cases i with
    | zero =>
      simp at hi
      subst hi
      rfl
    | succ j =>
      simp at hi
      simp [set_socket, ih j hi]

/-- `set_socket` changes no slot's id. -/
theorem set_socket_map_id (l : List Client) (i : Nat) (s : Nat) :
    (set_socket l i s).map Client.id = l.map Client.id := by
  induction l generalizing i with
  | nil => rfl
  | cons x xs ih =>
    cases i with
    | zero => simp [set_socket]
    | succ j => simp [set_socket, ih j]

/-- `set_socket` preserves the pool length. -/
theorem set_socket_length (l : List Client) (i : Nat) (s : Nat) :
    (set_socket l i s).length = l.length := by
  have := congrArg List.length (set_socket_map_id l i s)
  simpa using this

/-! Claim theorems. -/

/-- C1 counterexample: with a two-slot pool (ids 0 and 1) in which every
slot is occupied, `find_empty_client` appends a slot whose id is 0 — not
the maximum existing id plus one (which would be 2) — and that id collides
with the existing slot of id 0. -/
theorem growth_id_collides_cex :
    (find_empty_client [Client.mk 0 5, Client.mk 1 6]).fst[2]? =
      some (Client.mk 0 INVALID_SOCKET)
    ∧ ((find_empty_client [Client.mk 0 5, Client.mk 1 6]).fst[2]?).map Client.id ≠ some 2
    ∧ ((find_empty_client [Client.mk 0 5, Client.mk 1 6]).fst[0]?).map Client.id =
      ((find_empty_client [Client.mk 0 5, Client.mk 1 6]).fst[2]?).map Client.id := by
  decide

/-- C1 amended: when every slot of the pool is occupied, `find_empty_client`
appends exactly one new empty slot — `Client::default()`, whose id is 0 and
may therefore collide with an existing slot's id — and returns that slot
(the index just past the old pool). -/
theorem growth_appends_default_slot (pool : List Client)
    (hfull : ∀ c ∈ pool, c.socket ≠ INVALID_SOCKET) :
    find_empty_client pool = (pool ++ [Client.default], pool.length)
    ∧ (pool ++ [Client.default])[pool.length]? = some Client.default
    ∧ Client.default.socket = INVALID_SOCKET
    ∧ Client.default.id = 0 := by
  refine ⟨?_, getElem_append_length pool Client.default, rfl, rfl⟩
  unfold find_empty_client
  rw [find_first_empty_idx_all_occupied pool hfull]

/-- C1 witness: the amended growth theorem evaluated on a concrete fully
occupied pool. -/
theorem growth_appends_default_slot_witness :
    (∀ c ∈ [Client.mk 0 5, Client.mk 1 6], c.socket ≠ INVALID_SOCKET)
    ∧ (find_empty_client [Client.mk 0 5, Client.mk 1 6] =
        ([Client.mk 0 5, Client.mk 1 6] ++ [Client.default], 2)
      ∧ ([Client.mk 0 5, Client.mk 1 6] ++ [Client.default])[2]? = some Client.default
      ∧ Client.default.socket = INVALID_SOCKET
      ∧ Client.default.id = 0) :=
  ⟨by decide, growth_appends_default_slot [Client.mk 0 5, Client.mk 1 6] (by decide)⟩

/-- C6: `find_empty_client` scans the slots in insertion order and returns
the first slot whose socket is the empty sentinel, without growing the pool;
in particular the slot (and hence its id) of a client whose slot was marked
empty on disconnect is handed out again when no earlier slot is empty. -/
theorem first_empty_slot_returned (pool : List Client) (i : Nat) (c : Client)
    (hi : pool[i]? = some c) (hc : c.socket = INVALID_SOCKET)
    (hfirst : ∀ cj ∈ pool.take i, cj.socket ≠ INVALID_SOCKET) :
    find_empty_client pool = (pool, i)
    ∧ ((find_empty_client pool).fst[(find_empty_client pool).snd]?).map Client.id =
      some c.id := by
  have hidx := find_first_empty_idx_first pool i c hi hc hfirst
  constructor
  · unfold find_empty_client
    rw [hidx]
  · unfold find_empty_client
    rw [hidx]
    simp [hi]

/-- C6 witness: the first-empty-slot theorem evaluated on a pool whose slot
1 was emptied by a disconnect while slot 0 is still occupied. -/
theorem first_empty_slot_returned_witness :
    (([Client.mk 0 5, Client.mk 1 INVALID_SOCKET] : List Client)[1]? =
        some (Client.mk 1 INVALID_SOCKET)
      ∧ (Client.mk 1 INVALID_SOCKET).socket = INVALID_SOCKET
      ∧ ∀ cj ∈ ([Client.mk 0 5, Client.mk 1 INVALID_SOCKET] : List Client).take 1,
          cj.socket ≠ INVALID_SOCKET)
    ∧ (find_empty_client [Client.mk 0 5, Client.mk 1 INVALID_SOCKET] =
        ([Client.mk 0 5, Client.mk 1 INVALID_SOCKET], 1)
      ∧ ((find_empty_client [Client.mk 0 5, Client.mk 1 INVALID_SOCKET]).fst[
          (find_empty_client [Client.mk 0 5, Client.mk 1 INVALID_SOCKET]).snd]?).map
          Client.id = some (Client.mk 1 INVALID_SOCKET).id) :=
  ⟨⟨by decide, by decide, by decide⟩,
    first_empty_slot_returned [Client.mk 0 5, Client.mk 1 INVALID_SOCKET] 1
      (Client.mk 1 INVALID_SOCKET) (by decide) (by decide) (by decide)⟩

/-- C7: when the accepted socket is the invalid sentinel, the accept step
reports failure and continues (no handler index is produced), the pool is
exactly the pool `find_empty_client` yielded — the chosen slot keeps the
invalid socket, so its occupied flag stays false and it remains eligible to
be returned again by `find_empty_client`. -/
theorem failed_accept_keeps_slot_empty (pool : List Client) :
    (accept_step pool INVALID_SOCKET).snd = none
    ∧ (accept_step pool INVALID_SOCKET).fst = (find_empty_client pool).fst
    ∧ ((accept_step pool INVALID_SOCKET).fst[(find_empty_client pool).snd]?).map
        Client.socket = some INVALID_SOCKET := by
  obtain ⟨c, hc1, hc2⟩ := find_empty_client_found pool
  have hset : set_socket (find_empty_client pool).fst (find_empty_client pool).snd
      INVALID_SOCKET = (find_empty_client pool).fst := by
    have := set_socket_same (find_empty_client pool).fst (find_empty_client pool).snd c hc1
    rwa [hc2] at this
  refine ⟨?_, ?_, ?_⟩
  · simp [accept_step]
  · simp [accept_step, hset]
  · simp [accept_step, hset, hc1, hc2]

/-- C8: pool operations never shrink the pool and never change an existing
slot's id: `find_empty_client` keeps every existing slot unchanged (its
result restricted to the old length is the old pool) and can only lengthen
the pool; the accept step changes no id and no length beyond that; the
handler's cleanup keeps the slot's id. -/
theorem pool_ids_stable_and_monotone (pool : List Client) (s : Nat) (c : Client) :
    pool.length ≤ (find_empty_client pool).fst.length
    ∧ (find_empty_client pool).fst.take pool.length = pool
    ∧ (accept_step pool s).fst.map Client.id = (find_empty_client pool).fst.map Client.id
    ∧ (accept_step pool s).fst.length = (find_empty_client pool).fst.length
    ∧ (handler_cleanup c).id = c.id := by
  refine ⟨?_, ?_, ?_, ?_, rfl⟩
  · unfold find_empty_client
    match find_first_empty_idx pool with
    | some i => simp
    | none => simp
  · unfold find_empty_client
    match find_first_empty_idx pool with
    | some i => simp
    | none => simp [take_length_append pool Client.default]
  · by_cases hs : s = INVALID_SOCKET <;>
      simp [accept_step, hs, set_socket_map_id]
  · by_cases hs : s = INVALID_SOCKET <;>
      simp [accept_step, hs, set_socket_length]

/-- C2 counterexample: starting from the freshly created ten-slot pool,
accept the first connection (socket 5 lands in slot 0) and capture the
snapshot exactly as the source does; the unoccupied slot of id 1 appears in
it, and the snapshot differs from the occupied-filtered one the spec
describes. -/
theorem snapshot_includes_unoccupied_cex :
    Client.mk 1 INVALID_SOCKET ∈
      snapshot_others (accept_step (ClientPool.new 10) 5).fst 0
    ∧ (Client.mk 1 INVALID_SOCKET).socket = INVALID_SOCKET
    ∧ snapshot_others (accept_step (ClientPool.new 10) 5).fst 0 ≠
      snapshot_others_spec (accept_step (ClientPool.new 10) 5).fst 0 := by
  decide

/-- C2 amended: the snapshot captured at connection-acceptance time contains
exactly the slots whose id differs from the accepted connection's id, in
pool order, regardless of their occupied flag; unoccupied peers are skipped
only later, at forward time. -/
theorem snapshot_filters_only_by_id (pool : List Client) (excludeId : Nat) :
    List.Sublist (snapshot_others pool excludeId) pool
    ∧ ∀ c, c ∈ snapshot_others pool excludeId ↔ (c ∈ pool ∧ c.id ≠ excludeId) := by
  constructor
  · exact List.filter_sublist pool
  · intro c
    simp [snapshot_others]

/-- C3 (code evaluated at the failing input): a zero-length read — `recv`
returning 0, the TCP disconnect signal — does not drive the handler into
the closing state: the empty message is echoed to the sender and forwarded
to the occupied peer, and the loop keeps relaying; an error read (`recv`
returning -1) makes the slice bound check panic instead of closing.  (The
step function takes the buffer contents as a parameter; a short buffer
stands in for the 2048-byte one, which only makes the panic bound harder to
exceed.) -/
theorem zero_read_keeps_relaying :
    handler_step 0 [Client.mk 1 7] 0 (List.replicate 8 ' ') =
      StepResult.relayContinue [Action.sendTo 0 [], Action.sendTo 1 []]
    ∧ handler_step 0 [Client.mk 1 7] (-1) (List.replicate 8 ' ') =
      StepResult.panicked
    ∧ relay_loop 0 [Client.mk 1 7] [(0, List.replicate 8 ' ')] =
      ([Action.sendTo 0 [], Action.sendTo 1 []], LoopExit.starvedExit) := by
  decide

/-- The forward loop sends exactly to the occupied peers, in snapshot
order, with the identical message. -/
theorem forward_loop_eq_filter_map (msg : List Char) (others : List Client) :
    forward_loop msg others =
      (others.filter (fun c => !(c.socket == INVALID_SOCKET))).map
        (fun c => Action.sendTo c.id msg) := by
  induction others with
  | nil => rfl
  | cons c rest ih =>
    by_cases hc : c.socket = INVALID_SOCKET
    · simp [forward_loop, hc, ih]
    · simp [forward_loop, hc, ih]

/-- C4: a received message whose decoded text begins with `":end"` (prefix
match) makes the handler send exactly one farewell payload to the sender
and nothing to any peer, break out of the relay loop, and — after the
cleanup that closes the stream — leaves the sender's slot empty with its id
intact (eligible for reuse). -/
theorem termination_token_behavior (selfId : Nat) (others : List Client)
    (self : Client) (rs : Int) (buf : List Char) (rest : List (Int × List Char))
    (hk : usize_cast rs ≤ buf.length)
    (hend : termToken.isPrefixOf (decoded_message rs buf) = true) :
    handler_step selfId others rs buf =
      StepResult.relayClosing [Action.sendTo selfId byeMessage]
    ∧ relay_loop selfId others ((rs, buf) :: rest) =
      ([Action.sendTo selfId byeMessage], LoopExit.gracefulExit)
    ∧ (handler_cleanup self).socket = INVALID_SOCKET
    ∧ (handler_cleanup self).id = self.id
    ∧ ∀ d m, Action.sendTo d m ∈ [Action.sendTo selfId byeMessage] →
        d = selfId ∧ m = byeMessage := by
  have hnl : ¬ (buf.length < usize_cast rs) := by omega
  have hstep : handler_step selfId others rs buf =
      StepResult.relayClosing [Action.sendTo selfId byeMessage] := by
    simp [handler_step, hnl, hend]
  refine ⟨hstep, ?_, rfl, rfl, ?_⟩
  · simp [relay_loop, hstep]
  · intro d m hm
    simp at hm
    exact hm

/-- C4 witness: the termination-token theorem evaluated on the message
`":ending"` (prefix, not exact, match) with one occupied peer. -/
theorem termination_token_behavior_witness :
    (usize_cast 7 ≤ ([':', 'e', 'n', 'd', 'i', 'n', 'g'] : List Char).length
      ∧ termToken.isPrefixOf
          (decoded_message 7 [':', 'e', 'n', 'd', 'i', 'n', 'g']) = true)
    ∧ (handler_step 3 [Client.mk 1 7] 7 [':', 'e', 'n', 'd', 'i', 'n', 'g'] =
        StepResult.relayClosing [Action.sendTo 3 byeMessage]
      ∧ relay_loop 3 [Client.mk 1 7] [(7, [':', 'e', 'n', 'd', 'i', 'n', 'g'])] =
        ([Action.sendTo 3 byeMessage], LoopExit.gracefulExit)
      ∧ (handler_cleanup (Client.mk 3 9)).socket = INVALID_SOCKET
      ∧ (handler_cleanup (Client.mk 3 9)).id = (Client.mk 3 9).id
      ∧ ∀ d m, Action.sendTo d m ∈ [Action.sendTo 3 byeMessage] →
          d = 3 ∧ m = byeMessage) :=
  ⟨⟨by decide, by decide⟩,
    termination_token_behavior 3 [Client.mk 1 7] (Client.mk 3 9) 7
      [':', 'e', 'n', 'd', 'i', 'n', 'g'] [] (by decide) (by decide)⟩

/-- C5: for a successfully read message that does not begin with the
termination token, the handler first echoes the message back to the sender
and then forwards the identical characters to exactly the peers of the
snapshot whose slot is occupied at forward time, in snapshot order; a peer
whose slot is empty (and whose id is not also carried by some occupied
peer) receives nothing. -/
theorem echo_before_broadcast (selfId : Nat) (others : List Client)
    (rs : Int) (buf : List Char)
    (hk : usize_cast rs ≤ buf.length)
    (hend : termToken.isPrefixOf (decoded_message rs buf) = false) :
    handler_step selfId others rs buf =
      StepResult.relayContinue
        (Action.sendTo selfId (decoded_message rs buf) ::
          (others.filter (fun c => !(c.socket == INVALID_SOCKET))).map
            (fun c => Action.sendTo c.id (decoded_message rs buf)))
    ∧ ∀ c ∈ others, c.socket = INVALID_SOCKET →
        (∀ c2 ∈ others, c2.socket ≠ INVALID_SOCKET → c2.id ≠ c.id) →
        ∀ a ∈ (others.filter (fun c2 => !(c2.socket == INVALID_SOCKET))).map
            (fun c2 => Action.sendTo c2.id (decoded_message rs buf)),
          a ≠ Action.sendTo c.id (decoded_message rs buf) := by
  have hnl : ¬ (buf.length < usize_cast rs) := by omega
  constructor
  · simp [handler_step, hnl, hend, forward_loop_eq_filter_map]
  · intro c hc hcsock hunique a ha
    simp only [List.mem_map, List.mem_filter] at ha
    obtain ⟨c2, ⟨hc2mem, hc2occ⟩, rfl⟩ := ha
    have hne : c2.id ≠ c.id := by
      apply hunique c2 hc2mem
      simpa using hc2occ
    intro heq
    exact hne (by injection heq)

/-- C5 witness: the echo-before-broadcast theorem evaluated on the message
`"hi"` with one occupied peer (which receives the forward) and one empty
peer (which receives nothing). -/
theorem echo_before_broadcast_witness :
    (usize_cast 2 ≤ (['h', 'i'] : List Char).length
      ∧ termToken.isPrefixOf (decoded_message 2 ['h', 'i']) = false)
    ∧ (handler_step 0 [Client.mk 1 7, Client.mk 2 INVALID_SOCKET] 2 ['h', 'i'] =
        StepResult.relayContinue
          (Action.sendTo 0 (decoded_message 2 ['h', 'i']) ::
            (([Client.mk 1 7, Client.mk 2 INVALID_SOCKET] : List Client).filter
              (fun c => !(c.socket == INVALID_SOCKET))).map
              (fun c => Action.sendTo c.id (decoded_message 2 ['h', 'i'])))
      ∧ ∀ c ∈ ([Client.mk 1 7, Client.mk 2 INVALID_SOCKET] : List Client),
          c.socket = INVALID_SOCKET →
          (∀ c2 ∈ ([Client.mk 1 7, Client.mk 2 INVALID_SOCKET] : List Client),
            c2.socket ≠ INVALID_SOCKET → c2.id ≠ c.id) →
          ∀ a ∈ (([Client.mk 1 7, Client.mk 2 INVALID_SOCKET] : List Client).filter
              (fun c2 => !(c2.socket == INVALID_SOCKET))).map
              (fun c2 => Action.sendTo c2.id (decoded_message 2 ['h', 'i'])),
            a ≠ Action.sendTo c.id (decoded_message 2 ['h', 'i'])) :=
  ⟨⟨by decide, by decide⟩,
    echo_before_broadcast 0 [Client.mk 1 7, Client.mk 2 INVALID_SOCKET] 2
      ['h', 'i'] (by decide) (by decide)⟩

/-- The peer forward loop never touches the handler's own slot lock. -/
theorem peer_forward_events_no_self (cs : List Client) :
    ∀ e ∈ peer_forward_events cs,
      e ≠ LockEvent.acquireSelf ∧ e ≠ LockEvent.releaseSelf := by
  induction cs with
  | nil => simp [peer_forward_events]
  | cons c rest ih =>
    intro e he
    by_cases hc : c.socket = INVALID_SOCKET
    · simp [peer_forward_events, hc] at he
      rcases he with h | h | h
      · subst h; exact ⟨by simp, by simp⟩
      · subst h; exact ⟨by simp, by simp⟩
      · exact ih e h
    · simp [peer_forward_events, hc] at he
      rcases he with h | h | h | h
      · subst h; exact ⟨by simp, by simp⟩
      · subst h; exact ⟨by simp, by simp⟩
      · subst h; exact ⟨by simp, by simp⟩
      · exact ih e h

/-- The relay loop never touches the handler's own slot lock either. -/
theorem relay_loop_events_no_self (selfId : Nat) (others : List Client)
    (inputs : List (Int × List Char)) :
    ∀ e ∈ relay_loop_events selfId others inputs,
      e ≠ LockEvent.acquireSelf ∧ e ≠ LockEvent.releaseSelf := by
  induction inputs with
  | nil => simp [relay_loop_events]
  | cons p rest ih =>
    obtain ⟨rs, buf⟩ := p
    intro e he
    by_cases h1 : buf.length < usize_cast rs
    · simp [relay_loop_events, h1] at he
      subst he; exact ⟨by simp, by simp⟩
    · by_cases h2 : termToken.isPrefixOf (decoded_message rs buf) = true
      · simp [relay_loop_events, h1, h2] at he
        rcases he with h | h
        · subst h; exact ⟨by simp, by simp⟩
        · subst h; exact ⟨by simp, by simp⟩
      · simp [relay_loop_events, h1, h2] at he
        rcases he with h | h | h | h
        · subst h; exact ⟨by simp, by simp⟩
        · subst h; exact ⟨by simp, by simp⟩
        · exact peer_forward_events_no_self others e h
        · exact ih e h

/-- Running the held-lock checker at depth 1 through a block of events that
never touches the self lock just passes through. -/
theorem all_blocking_locked_append (l tl : List LockEvent)
    (h : ∀ e ∈ l, e ≠ LockEvent.acquireSelf ∧ e ≠ LockEvent.releaseSelf) :
    all_blocking_locked (l ++ tl) 1 = all_blocking_locked tl 1 := by
  induction l with
  | nil => rfl
  | cons e rest ih =>
    have hrest : ∀ x ∈ rest, x ≠ LockEvent.acquireSelf ∧ x ≠ LockEvent.releaseSelf :=
      fun x hx => h x (List.mem_cons_of_mem e hx)
    have he := h e (List.mem_cons_self e rest)
    cases e with
    | acquireSelf => exact absurd rfl he.1
    | releaseSelf => exact absurd rfl he.2
    | acquirePeer p => simpa [all_blocking_locked] using ih hrest
    | releasePeer p => simpa [all_blocking_locked] using ih hrest
    | blockingRecv => simpa [all_blocking_locked] using ih hrest
    | blockingSend d => simpa [all_blocking_locked] using ih hrest

/-- C9 counterexample: already on the shortest possible run (no loop
iteration at all) the handler performs a blocking send — the greeting —
while holding its own slot's lock, so the discipline "release the own
slot's lock before blocking" fails on the handler's event trace. -/
theorem lock_held_across_blocking_cex :
    no_blocking_while_locked (handler_events 0 [] []) 0 = false := by
  decide

/-- C9 amended: a handler acquires its own slot's lock when the thread
starts and releases it only when the thread ends, and every blocking
operation of the handler — the greeting send, each receive, the echo,
farewell and peer forward sends — is performed while that lock is held
(peer locks are additionally taken inside it); the spec's discipline of
releasing the lock before blocking holds on no run. -/
theorem handler_holds_lock_across_blocking (selfId : Nat) (others : List Client)
    (inputs : List (Int × List Char)) :
    all_blocking_locked (handler_events selfId others inputs) 0 = true
    ∧ no_blocking_while_locked (handler_events selfId others inputs) 0 = false
    ∧ (handler_events selfId others inputs).head? = some LockEvent.acquireSelf := by
  refine ⟨?_, ?_, rfl⟩
  · show all_blocking_locked
      (LockEvent.acquireSelf :: LockEvent.blockingSend selfId ::
        (relay_loop_events selfId others inputs ++ [LockEvent.releaseSelf])) 0 = true
    rw [show all_blocking_locked
        (LockEvent.acquireSelf :: LockEvent.blockingSend selfId ::
          (relay_loop_events selfId others inputs ++ [LockEvent.releaseSelf])) 0 =
        (decide (0 < 1) && all_blocking_locked
          (relay_loop_events selfId others inputs ++ [LockEvent.releaseSelf]) 1) from rfl]
    rw [all_blocking_locked_append _ _ (relay_loop_events_no_self selfId others inputs)]
    rfl
  · rfl

/-- `mk_clients` produces exactly the requested number of slots. -/
theorem mk_clients_length (n s : Nat) : (mk_clients s n).length = n := by
  induction n generalizing s with
  | zero => rfl
  | succ k ih => simp [mk_clients, ih]

/-- Every slot `mk_clients` produces carries the invalid socket. -/
theorem mk_clients_sockets (n s : Nat) :
    ∀ c ∈ mk_clients s n, c.socket = INVALID_SOCKET := by
  induction n generalizing s with
  | zero => simp [mk_clients]
  | succ k ih =>
    intro c hc
    simp [mk_clients] at hc
    rcases hc with h | h
    · subst h; rfl
    · exact ih _ c h

/-- The ids `mk_clients` assigns: the `u32` counter starting at `s`. -/
theorem mk_clients_map_id (n s : Nat) (hs : s < U32_MOD) :
    (mk_clients s n).map Client.id = (List.range n).map (fun i => (s + i) % U32_MOD) := by
  induction n generalizing s with
  | zero => rfl
  | succ k ih =>
    have hs1 : (s + 1) % U32_MOD < U32_MOD := Nat.mod_lt _ (by decide)
    have htail := ih ((s + 1) % U32_MOD) hs1
    have hfun : (fun i => ((s + 1) % U32_MOD + i) % U32_MOD) =
        (fun i => (s + (i + 1)) % U32_MOD) := by
      funext i
      rw [Nat.mod_add_mod]
      congr 1
      omega
    rw [List.range_succ_eq_map]
    simp only [mk_clients, List.map_cons, List.map_map]
    rw [htail, hfun]
    congr 1
    simp [Nat.mod_eq_of_lt hs]

/-- Taking the ids modulo `U32_MOD` is the identity below the modulus. -/
theorem map_mod_range (n m : Nat) (h : n ≤ m) :
    (List.range n).map (fun i => i % m) = List.range n := by
  induction n with
  | zero => rfl
  | succ k ih =>
    rw [List.range_succ, List.map_append, ih (Nat.le_of_succ_le h)]
    simp [Nat.mod_eq_of_lt (Nat.lt_of_lt_of_le (Nat.lt_succ_self k) h)]

/-- C10 counterexample: at pool size `2^32 + 1` the `u32` id counter wraps,
so the slot at index `2^32` gets id 0 instead of the consecutive value
`2^32`; the ids are not `0, 1, ..., pool_size - 1`. -/
theorem new_pool_id_wrap_cex :
    ((ClientPool.new (U32_MOD + 1)).map Client.id)[U32_MOD]? = some 0
    ∧ (List.range (U32_MOD + 1))[U32_MOD]? = some U32_MOD
    ∧ (ClientPool.new (U32_MOD + 1)).map Client.id ≠ List.range (U32_MOD + 1) := by
  have h0 : (0 + U32_MOD) % U32_MOD = 0 := by
    rw [Nat.zero_add, Nat.mod_self]
  have hmap : (ClientPool.new (U32_MOD + 1)).map Client.id =
      (List.range (U32_MOD + 1)).map (fun i => (0 + i) % U32_MOD) :=
    mk_clients_map_id (U32_MOD + 1) 0 (by decide)
  have hidx := getElem_append_length
    ((List.range U32_MOD).map (fun i => (0 + i) % U32_MOD))
    ((0 + U32_MOD) % U32_MOD)
  rw [List.length_map, List.length_range, h0] at hidx
  have hget1 : ((ClientPool.new (U32_MOD + 1)).map Client.id)[U32_MOD]? = some 0 := by
    rw [hmap, List.range_succ, List.map_append,
      show List.map (fun i => (0 + i) % U32_MOD) [U32_MOD] =
        [(0 + U32_MOD) % U32_MOD] from rfl, h0]
    exact hidx
  have hidx2 := getElem_append_length (List.range U32_MOD) U32_MOD
  rw [List.length_range] at hidx2
  have hget2 : (List.range (U32_MOD + 1))[U32_MOD]? = some U32_MOD := by
    rw [List.range_succ]
    exact hidx2
  refine ⟨hget1, hget2, ?_⟩
  intro heq
  rw [heq, hget2] at hget1
  exact absurd (Option.some.inj hget1) (by decide)

/-- C10 amended: for every pool size up to `2^32`, `ClientPool::new` creates
exactly `pool_size` slots, all empty (socket equal to the invalid sentinel),
with ids `0, 1, ..., pool_size - 1` in insertion order; beyond `2^32` the
`u32` ids wrap around. -/
theorem new_pool_slots (n : Nat) (h : n ≤ U32_MOD) :
    (ClientPool.new n).length = n
    ∧ (∀ c ∈ ClientPool.new n, c.socket = INVALID_SOCKET)
    ∧ (ClientPool.new n).map Client.id = List.range n := by
  refine ⟨mk_clients_length n 0, mk_clients_sockets n 0, ?_⟩
  rw [show ClientPool.new n = mk_clients 0 n from rfl,
    mk_clients_map_id n 0 (by decide)]
  simp only [Nat.zero_add]
  exact map_mod_range n U32_MOD h

/-- C10 witness: the pool-construction theorem evaluated at pool size 3. -/
theorem new_pool_slots_witness :
    3 ≤ U32_MOD
    ∧ ((ClientPool.new 3).length = 3
      ∧ (∀ c ∈ ClientPool.new 3, c.socket = INVALID_SOCKET)
      ∧ (ClientPool.new 3).map Client.id = List.range 3) :=
  ⟨by decide, new_pool_slots 3 (by decide)⟩

end Unit05
